import Mathlib

/-!
Verification development for the DoIt-rs todo TUI component
(src/components/home.rs).  The data model, key handling, intent
application, persistence and render logic are embedded shallowly below;
theorems about the embedding settle the specification's claims.
-/

namespace DoIt

/-- A todo item, from home.rs: a struct with a single field title: String. -/
structure TodoItem where
  title : String
deriving DecidableEq

/-- TodoItem::new, from home.rs. -/
def TodoItem.new (title : String) : TodoItem := ⟨title⟩

/-- The interaction modes, from the Mode enum in home.rs. -/
inductive Mode where
  | Normal
  | Editing
  | Browse
  | Help
deriving DecidableEq

/-- Display impl for Mode, from home.rs. -/
def Mode.display : Mode → String
  | .Normal => "Normal"
  | .Editing => "Editing"
  | .Browse => "Browsing"
  | .Help => "Help"

/-- The intents dispatched by home.rs.  The Action enum's own file
(src/action.rs) is not among the sources; the variants listed here are
exactly those home.rs constructs or matches on. -/
inductive Action where
  | EnterCommandMode
  | EnterBrowseMode
  | EnterHelpMode
  | ExitCurrentMode
  | AddTodo
  | Refresh
  | BrowseListUp
  | BrowseListDown
deriving DecidableEq

/-- Key codes, modelling crossterm's KeyCode restricted to the variants
the component and the buffer editor distinguish (modifier-free events). -/
inductive KeyCode where
  | char (c : Char)
  | enter
  | esc
  | backspace
  | left
  | right
  | tab
deriving DecidableEq

/-- The transient input buffer, modelling tui_input::Input: a line of
text plus a cursor offset. -/
structure Input where
  value : List Char
  cursor : Nat
deriving DecidableEq

/-- Input::reset from tui_input: clears the value and the cursor. -/
def Input.reset : Input := ⟨[], 0⟩

/-- Input::handle_event from tui_input (modifier-free key events,
single-width characters): a character key inserts at the cursor,
Backspace deletes the char before the cursor, Left/Right move the
cursor; other keys (Enter, Esc, Tab) leave the buffer unchanged. -/
def inputHandleEvent (inp : Input) (key : KeyCode) : Input :=
  match key with
  | .char c =>
      ⟨inp.value.take inp.cursor ++ c :: inp.value.drop inp.cursor, inp.cursor + 1⟩
  | .backspace =>
      if inp.cursor = 0 then inp
      else ⟨inp.value.take (inp.cursor - 1) ++ inp.value.drop inp.cursor, inp.cursor - 1⟩
  | .left => ⟨inp.value, inp.cursor - 1⟩
  | .right => ⟨inp.value, min (inp.cursor + 1) inp.value.length⟩
  | _ => inp

/-- The component state from the Home struct in home.rs: the todo store,
the input buffer, the active mode and the browse cursor row (an i64 in
the source, embedded as Int; its values stay tiny, so no wrap applies). -/
structure Home where
  todos : List TodoItem
  input : Input
  input_mode : Mode
  cursor_row : Int
deriving DecidableEq

/-- Home::default / Home::new from home.rs. -/
def Home.init : Home := ⟨[], ⟨[], 0⟩, .Normal, 0⟩

/-- The outcome of Home::handle_key_events: the possibly updated
component (the Editing branch feeds the key to the buffer editor), the
actions sent over the command channel during the call, and the returned
optional action.  The model assumes the action handler is registered,
as the harness always does before the event loop. -/
structure KeyOut where
  home : Home
  sent : List Action
  result : Option Action
deriving DecidableEq

/-- Home::handle_key_events from home.rs, translated arm by arm. -/
def handle_key_events (h : Home) (key : KeyCode) : KeyOut :=
  match h.input_mode with
  | .Normal =>
      match key with
      | .char c =>
          if c = 'i' then ⟨h, [], some .EnterCommandMode⟩
          else if c = 'v' then ⟨h, [], some .EnterBrowseMode⟩
          else if c = 'h' then ⟨h, [], some .EnterHelpMode⟩
          else ⟨h, [], none⟩
      | _ => ⟨h, [], none⟩
  | .Editing =>
      match key with
      | .enter => ⟨h, [.AddTodo], some .ExitCurrentMode⟩
      | _ => ⟨{ h with input := inputHandleEvent h.input key }, [], some .Refresh⟩
  | .Browse =>
      match key with
      | .char c =>
          if c = 'j' then ⟨h, [], some .BrowseListDown⟩
          else if c = 'k' then ⟨h, [], some .BrowseListUp⟩
          else ⟨h, [], none⟩
      | _ => ⟨h, [], none⟩
  | .Help =>
      match key with
      | .char c =>
          if c = 'h' then ⟨h, [], some .ExitCurrentMode⟩ else ⟨h, [], none⟩
      | _ => ⟨h, [], none⟩

/-- Home::update from home.rs, translated arm by arm.  The source
returns Ok(None) on every path, so the model returns just the state. -/
def update (h : Home) (a : Action) : Home :=
  match h.input_mode, a with
  | .Normal, .EnterCommandMode => { h with input_mode := .Editing }
  | .Normal, .EnterBrowseMode => { h with input_mode := .Browse }
  | .Normal, .EnterHelpMode => { h with input_mode := .Help }
  | .Normal, _ => h
  | .Editing, .ExitCurrentMode => { h with input_mode := .Normal }
  | .Editing, .AddTodo =>
      { h with
        todos := h.todos ++ [TodoItem.new (String.mk h.input.value)],
        input := Input.reset,
        input_mode := .Editing }
  | .Editing, _ => h
  | .Browse, .ExitCurrentMode => { h with input_mode := .Normal }
  | .Browse, .BrowseListUp => { h with cursor_row := max (h.cursor_row - 1) 0 }
  | .Browse, .BrowseListDown =>
      { h with cursor_row := min (h.cursor_row + 1) ((h.todos.length : Int) - 1) }
  | .Browse, _ => h
  | .Help, .ExitCurrentMode => { h with input_mode := .Normal }
  | .Help, _ => h

/-- Modelled from the spec: the generic exit-current-mode intent is
bound to the Esc key in Browse mode ("Browse | Esc/exit key | return to
Normal").  The binding lives in the harness (src/app.rs and the key
configuration), which is not among the sources; home.rs itself returns
no action for Esc in Browse. -/
def harnessExitAction (mode : Mode) (key : KeyCode) : Option Action :=
  if mode = Mode.Browse ∧ key = KeyCode.esc then some .ExitCurrentMode else none

/-- One full key press, modelled from the spec's control flow: the
harness delivers the key to handle_key_events, then dispatches every
produced intent to update, in emission order (the channel send inside
handle_key_events happens before the returned action is queued, and the
action channel is FIFO). -/
def pressKey (h : Home) (key : KeyCode) : Home :=
  let out := handle_key_events h key
  let acts := out.sent ++ out.result.toList ++ (harnessExitAction h.input_mode key).toList
  acts.foldl update out.home

/-- A sequence of key presses. -/
def pressKeys (ks : List KeyCode) (h : Home) : Home :=
  ks.foldl pressKey h

/-- The keys the specification's §4.1 transition table binds in each
mode (in Editing the table binds every key: Enter commits, every other
key is forwarded to the buffer editor). -/
def tableHandledKey (mode : Mode) (key : KeyCode) : Bool :=
  match mode, key with
  | .Normal, .char c => c = 'i' || c = 'v' || c = 'h'
  | .Normal, _ => false
  | .Editing, _ => true
  | .Browse, .char c => c = 'j' || c = 'k'
  | .Browse, .esc => true
  | .Browse, _ => false
  | .Help, .char c => c = 'h'
  | .Help, _ => false

/-- The keys of the scenario: press i, type the title, press Enter. -/
def buyMilk : List Char := ['B', 'u', 'y', ' ', 'm', 'i', 'l', 'k']

/-- The scenario key sequence from the spec. -/
def buyMilkKeys : List KeyCode :=
  KeyCode.char 'i' :: (buyMilk.map KeyCode.char ++ [KeyCode.enter])

/-! Persistence: the JSON form serde_json writes and reads for
Vec of TodoItem.  The file contents are modelled as a String (the file
is read to a string before parsing); a missing file is the none case. -/

/-- The opening brace character (0x7B). -/
def lbrace : Char := Char.ofNat 123

/-- The closing brace character (0x7D). -/
def rbrace : Char := Char.ofNat 125

/-- Lowercase hex digit for a value below 16, as serde_json writes it. -/
def hexDigitChar (n : Nat) : Char :=
  if n < 10 then Char.ofNat (48 + n) else Char.ofNat (87 + n)

/-- How serde_json escapes one character inside a JSON string: quote and
backslash get a backslash escape, the named control characters get their
short escapes, the remaining control characters become a u00-escape, and
every other character is written as itself. -/
def encodeChar (c : Char) : List Char :=
  if c = '"' then ['\\', '"']
  else if c = '\\' then ['\\', '\\']
  else if c = Char.ofNat 8 then ['\\', 'b']
  else if c = Char.ofNat 9 then ['\\', 't']
  else if c = Char.ofNat 10 then ['\\', 'n']
  else if c = Char.ofNat 12 then ['\\', 'f']
  else if c = Char.ofNat 13 then ['\\', 'r']
  else if c.toNat < 32 then
    ['\\', 'u', '0', '0', hexDigitChar (c.toNat / 16), hexDigitChar (c.toNat % 16)]
  else [c]

/-- A JSON string literal for the given characters. -/
def encodeString (cs : List Char) : List Char :=
  '"' :: (cs.map encodeChar).flatten ++ ['"']

/-- The key of the single field of TodoItem. -/
def titleKey : List Char := ['t', 'i', 't', 'l', 'e']

/-- The JSON object serde_json writes for one TodoItem. -/
def encodeItem (t : TodoItem) : List Char :=
  lbrace :: '"' :: titleKey ++ '"' :: ':' :: encodeString t.title.data ++ [rbrace]

/-- The JSON array serde_json writes for the todo vector. -/
def encodeTodos : List TodoItem → List Char
  | [] => ['[', ']']
  | t :: ts =>
      '[' :: encodeItem t ++ (ts.map fun u => ',' :: encodeItem u).flatten ++ [']']

/-- Home::teardown from home.rs: serialize the current store as JSON
(the model yields the written file contents; the file write and flush
are the harness's I/O). -/
def teardown (h : Home) : String := String.mk (encodeTodos h.todos)

/-- JSON whitespace. -/
def isWs (c : Char) : Bool :=
  c = ' ' || c = Char.ofNat 9 || c = Char.ofNat 10 || c = Char.ofNat 13

/-- Drop leading JSON whitespace. -/
def skipWs : List Char → List Char
  | [] => []
  | c :: r => if isWs c then skipWs r else c :: r

/-- Value of a hex digit character, upper or lower case. -/
def parseHexDigit (c : Char) : Option Nat :=
  if 48 ≤ c.toNat ∧ c.toNat ≤ 57 then some (c.toNat - 48)
  else if 97 ≤ c.toNat ∧ c.toNat ≤ 102 then some (c.toNat - 87)
  else if 65 ≤ c.toNat ∧ c.toNat ≤ 70 then some (c.toNat - 55)
  else none

/-- The single-character JSON escapes. -/
def unescapeSimple (c : Char) : Option Char :=
  if c = '"' then some '"'
  else if c = '\\' then some '\\'
  else if c = '/' then some '/'
  else if c = 'b' then some (Char.ofNat 8)
  else if c = 't' then some (Char.ofNat 9)
  else if c = 'n' then some (Char.ofNat 10)
  else if c = 'f' then some (Char.ofNat 12)
  else if c = 'r' then some (Char.ofNat 13)
  else none

/-- Parse the body of a JSON string literal (after the opening quote) up
to and including the closing quote, returning the decoded characters and
the remaining input.  Fuel bounds the recursion; one unit is spent per
decoded character, so any fuel beyond the input length is enough. -/
def parseStringBody : Nat → List Char → Option (List Char × List Char)
  | 0, _ => none
  | _ + 1, [] => none
  | fuel + 1, c :: r =>
    if c = '"' then some ([], r)
    else if c = '\\' then
      match r with
      | [] => none
      | e :: r2 =>
        if e = 'u' then
          match r2 with
          | h1 :: h2 :: h3 :: h4 :: r3 =>
            match parseHexDigit h1, parseHexDigit h2, parseHexDigit h3, parseHexDigit h4 with
            | some a, some b, some c2, some d =>
              let n := ((a * 16 + b) * 16 + c2) * 16 + d
              if n < 55296 ∨ (57344 ≤ n ∧ n < 1114112) then
                match parseStringBody fuel r3 with
                | some (s, rest) => some (Char.ofNat n :: s, rest)
                | none => none
              else none
            | _, _, _, _ => none
          | _ => none
        else
          match unescapeSimple e with
          | some u =>
            match parseStringBody fuel r2 with
            | some (s, rest) => some (u :: s, rest)
            | none => none
          | none => none
    else
      match parseStringBody fuel r with
      | some (s, rest) => some (c :: s, rest)
      | none => none

/-- Parse one JSON object of the TodoItem shape: a braced object whose
single field is the string key title with a string value. -/
def parseItem (fuel : Nat) (l : List Char) : Option (TodoItem × List Char) :=
  match skipWs l with
  | [] => none
  | c :: r =>
    if c = lbrace then
      match skipWs r with
      | [] => none
      | k :: r2 =>
        if k = '"' then
          match parseStringBody fuel r2 with
          | some (key, r3) =>
            if key = titleKey then
              match skipWs r3 with
              | [] => none
              | c2 :: r4 =>
                if c2 = ':' then
                  match skipWs r4 with
                  | [] => none
                  | q :: r5 =>
                    if q = '"' then
                      match parseStringBody fuel r5 with
                      | some (val, r6) =>
                        match skipWs r6 with
                        | [] => none
                        | c3 :: r7 =>
                          if c3 = rbrace then some (TodoItem.new (String.mk val), r7)
                          else none
                      | none => none
                    else none
                else none
            else none
          | none => none
        else none
    else none

/-- Parse the rest of a nonempty JSON array after its first item: any
number of comma-separated further items, then the closing bracket. -/
def parseArrayTail : Nat → Nat → List TodoItem → List Char → Option (List TodoItem × List Char)
  | _, 0, _, _ => none
  | sfuel, afuel + 1, acc, l =>
    match skipWs l with
    | [] => none
    | c :: r =>
      if c = ']' then some (acc, r)
      else if c = ',' then
        match parseItem sfuel r with
        | some (t, r2) => parseArrayTail sfuel afuel (acc ++ [t]) r2
        | none => none
      else none

/-- Parse a whole file as serde_json does for Vec of TodoItem: a JSON
array of title objects, with nothing but whitespace after it.  The fuel
bounds the two recursions; a unit is spent per decoded character or per
parsed item, so any fuel beyond the input length is enough. -/
def parseTodosCore (fuel : Nat) (l : List Char) : Option (List TodoItem) :=
  match skipWs l with
  | [] => none
  | c :: r =>
    if c = '[' then
      match skipWs r with
      | [] => none
      | c2 :: r2 =>
        if c2 = ']' then (if skipWs r2 = [] then some [] else none)
        else
          match parseItem fuel (c2 :: r2) with
          | some (t, r3) =>
            match parseArrayTail fuel fuel [t] r3 with
            | some (items, r4) => if skipWs r4 = [] then some items else none
            | none => none
          | none => none
    else none

/-- Parse a file, spending the input length plus one as fuel. -/
def parseTodos (s : String) : Option (List TodoItem) :=
  parseTodosCore (s.data.length + 1) s.data

/-- Home::buildup from home.rs: a missing file (the none case, the
source's Err branch of File::open) leaves the store untouched; with file
contents present, a parse failure propagates as an error, and a parsed
vector is appended item by item (the source's push loop, guarded by a
redundant nonemptiness test). -/
def buildup (source : Option String) (h : Home) : Except String Home :=
  match source with
  | none => .ok h
  | some buffer =>
    match parseTodos buffer with
    | none => .error "parse error"
    | some v =>
        .ok { h with
              todos :=
                if v.length > 0 then h.todos ++ v.map (fun t => TodoItem.new t.title)
                else h.todos }

/-! Rendering: a logical snapshot of what Home::draw paints.  Drawing
surface details (colors, borders, exact rectangles) are the widget
library's concern; the snapshot keeps the state-dependent content. -/

/-- An i64 cast to usize with Rust's wrapping as-conversion, as in the
source's select(Some(self.cursor_row as usize)). -/
def intToUsize (i : Int) : Nat := (i % (2 : Int) ^ 64).toNat

/-- Input::visual_cursor from tui_input (single-width characters). -/
def Input.visual_cursor (inp : Input) : Nat := inp.cursor

/-- Input::visual_scroll from tui_input (single-width characters): the
scroll that keeps the cursor inside the given width. -/
def Input.visual_scroll (inp : Input) (width : Nat) : Nat :=
  max inp.visual_cursor width - width

/-- The logical render snapshot Home::draw produces. -/
structure DrawOut where
  helpOverlay : Bool
  statusMsg : String
  inputShown : List Char
  inputScroll : Nat
  cursorCol : Option Nat
  listItems : List String
  listSelection : Option Nat
  highlightedRow : Option Nat
  modeIndicator : String
deriving DecidableEq

/-- The status line text per mode, concatenating the spans of home.rs. -/
def statusText : Mode → String
  | .Normal => "Press CTRL+C to exit, i to insert todo."
  | .Editing => "Press Esc to stop editing, Enter to record the todo"
  | .Browse => "Press j to scroll down, k to scroll up, Esc to exit browse mode "
  | .Help => ""

/-- Home::draw from home.rs as a pure snapshot: the component is
returned unchanged (the source writes no field of self) together with
what is painted.  The width argument is the width of the status chunk;
the selection a Browse-mode draw hands the list state is the cursor row
cast to usize, and a row is painted highlighted exactly when it is the
selected index of an existing item (out-of-range selections highlight
nothing).  The cursor column is relative to the input box edge. -/
def draw (h : Home) (width : Nat) : Home × DrawOut :=
  let innerWidth := max width 3 - 3
  let scroll := h.input.visual_scroll innerWidth
  let selection : Option Nat :=
    match h.input_mode with
    | .Browse => some (intToUsize h.cursor_row)
    | _ => none
  (h,
   { helpOverlay := h.input_mode = Mode.Help
     statusMsg := statusText h.input_mode
     inputShown := h.input.value
     inputScroll := scroll
     cursorCol :=
       match h.input_mode with
       | .Editing => some (max h.input.visual_cursor scroll - scroll + 1)
       | _ => none
     listItems :=
       (h.todos.enum.map fun p => toString p.1 ++ ": " ++ p.2.title)
     listSelection := selection
     highlightedRow :=
       match selection with
       | some i => if i < h.todos.length then some i else none
       | none => none
     modeIndicator := h.input_mode.display })

/-- The spec's load scenario: a persisted file holding one object with
title X loads, on a fresh component, to the one-item store X. -/
theorem buildup_sample_file :
    buildup (some " [ \x7b \"title\" : \"X\" \x7d ] ") Home.init =
      Except.ok { Home.init with todos := [⟨"X"⟩] } := rfl

/-! Claim theorems. -/

/-- C7: in Normal mode, pressing i moves the mode to Editing, v to
Browse and h to Help, and every other key yields no intent and leaves
the whole state (mode and store included) unchanged. -/
theorem c7_normal_mode_keys (h : Home) (hm : h.input_mode = Mode.Normal) :
    pressKey h (KeyCode.char 'i') = { h with input_mode := Mode.Editing } ∧
    pressKey h (KeyCode.char 'v') = { h with input_mode := Mode.Browse } ∧
    pressKey h (KeyCode.char 'h') = { h with input_mode := Mode.Help } ∧
    ∀ k : KeyCode, k ≠ .char 'i' → k ≠ .char 'v' → k ≠ .char 'h' →
      handle_key_events h k = ⟨h, [], none⟩ ∧ pressKey h k = h := by
  refine ⟨?_, ?_, ?_, ?_⟩
  · simp [pressKey, handle_key_events, update, harnessExitAction, hm]
  · simp [pressKey, handle_key_events, update, harnessExitAction, hm]
  · simp [pressKey, handle_key_events, update, harnessExitAction, hm]
  · intro k h1 h2 h3
    cases k <;>
      simp_all [pressKey, handle_key_events, harnessExitAction, hm]

/-- Witness for C7 at the initial state and the unbound key x. -/
theorem c7_normal_mode_keys_witness :
    pressKey Home.init (KeyCode.char 'i') = { Home.init with input_mode := Mode.Editing } ∧
    pressKey Home.init (KeyCode.char 'x') = Home.init :=
  ⟨(c7_normal_mode_keys Home.init rfl).1,
   ((c7_normal_mode_keys Home.init rfl).2.2.2 (.char 'x') (by decide) (by decide)
      (by decide)).2⟩

/-- C10: applying AddTodo in Editing mode appends an item whose title is
exactly the buffer contents, with no precondition on the buffer, and
resets the buffer; with an empty buffer the appended title is empty. -/
theorem c10_add_todo_unconditional (h : Home) (hm : h.input_mode = Mode.Editing) :
    update h Action.AddTodo =
      { h with
        todos := h.todos ++ [TodoItem.new (String.mk h.input.value)],
        input := Input.reset,
        input_mode := Mode.Editing } := by
  simp [update, hm]

/-- Witness for C10: committing an empty buffer appends an empty title. -/
theorem c10_add_todo_unconditional_witness :
    update ⟨[], ⟨[], 0⟩, Mode.Editing, 0⟩ Action.AddTodo =
      ⟨[TodoItem.new ""], ⟨[], 0⟩, Mode.Editing, 0⟩ :=
  c10_add_todo_unconditional ⟨[], ⟨[], 0⟩, Mode.Editing, 0⟩ rfl

/-- C3: the exit key in Browse mode produces the ExitCurrentMode intent
(the binding is spec-modelled, see harnessExitAction), and applying that
intent in Browse mode returns the mode to Normal, the rest of the state
untouched; a full Esc press in Browse therefore lands in Normal. -/
theorem c3_browse_esc_exits (h : Home) (hm : h.input_mode = Mode.Browse) :
    harnessExitAction Mode.Browse KeyCode.esc = some Action.ExitCurrentMode ∧
    update h Action.ExitCurrentMode = { h with input_mode := Mode.Normal } ∧
    pressKey h KeyCode.esc = { h with input_mode := Mode.Normal } := by
  refine ⟨rfl, ?_, ?_⟩
  · simp [update, hm]
  · simp [pressKey, handle_key_events, update, harnessExitAction, hm]

/-- Witness for C3 at a concrete browse state. -/
theorem c3_browse_esc_exits_witness :
    pressKey ⟨[⟨"A"⟩], ⟨[], 0⟩, Mode.Browse, 0⟩ KeyCode.esc =
      ⟨[⟨"A"⟩], ⟨[], 0⟩, Mode.Normal, 0⟩ :=
  (c3_browse_esc_exits ⟨[⟨"A"⟩], ⟨[], 0⟩, Mode.Browse, 0⟩ rfl).2.2

/-- C8: key handling is total with an explicit no-op frame: any key the
transition table does not bind in the current mode produces no intent at
all (handle_key_events returns the state unchanged with nothing sent and
nothing returned, and no error arises, the return being a plain value),
and the full press leaves the state unchanged. -/
theorem c8_unbound_keys_noop (h : Home) (k : KeyCode)
    (hk : tableHandledKey h.input_mode k = false) :
    handle_key_events h k = ⟨h, [], none⟩ ∧ pressKey h k = h := by
  cases hmode : h.input_mode <;> cases k <;>
    simp_all [pressKey, handle_key_events, harnessExitAction, tableHandledKey]

/-- Witness for C8: the unbound key q pressed in Help mode. -/
theorem c8_unbound_keys_noop_witness :
    handle_key_events ⟨[], ⟨[], 0⟩, Mode.Help, 0⟩ (KeyCode.char 'q') =
        ⟨⟨[], ⟨[], 0⟩, Mode.Help, 0⟩, [], none⟩ ∧
      pressKey ⟨[], ⟨[], 0⟩, Mode.Help, 0⟩ (KeyCode.char 'q') =
        ⟨[], ⟨[], 0⟩, Mode.Help, 0⟩ :=
  c8_unbound_keys_noop ⟨[], ⟨[], 0⟩, Mode.Help, 0⟩ (KeyCode.char 'q') (by decide)

/-- C9: the render call does not mutate logical state: the component
draw hands back has the same store, buffer, mode and cursor row as the
one it received, for every state and width. -/
theorem c9_draw_pure (h : Home) (w : Nat) :
    (draw h w).1.todos = h.todos ∧ (draw h w).1.input = h.input ∧
    (draw h w).1.input_mode = h.input_mode ∧ (draw h w).1.cursor_row = h.cursor_row :=
  ⟨rfl, rfl, rfl, rfl⟩

/-- A j press in Browse mode, as one record update. -/
theorem pressKey_browse_j (h : Home) (hm : h.input_mode = Mode.Browse) :
    pressKey h (KeyCode.char 'j') =
      { h with cursor_row := min (h.cursor_row + 1) ((h.todos.length : Int) - 1) } := by
  simp [pressKey, handle_key_events, update, harnessExitAction, hm]

/-- A k press in Browse mode, as one record update. -/
theorem pressKey_browse_k (h : Home) (hm : h.input_mode = Mode.Browse) :
    pressKey h (KeyCode.char 'k') =
      { h with cursor_row := max (h.cursor_row - 1) 0 } := by
  simp [pressKey, handle_key_events, update, harnessExitAction, hm]

/-- Any sequence of j and k presses keeps the mode at Browse and the
store untouched, and moves the cursor row only by the two clamped
steps; starting in range with a nonempty store it stays in range. -/
theorem browse_jk_fold (ks : List KeyCode) :
    ∀ h : Home, h.input_mode = Mode.Browse →
      (∀ k ∈ ks, k = KeyCode.char 'j' ∨ k = KeyCode.char 'k') →
      (pressKeys ks h).input_mode = Mode.Browse ∧
      (pressKeys ks h).todos = h.todos ∧
      (0 ≤ h.cursor_row → h.cursor_row < (h.todos.length : Int) →
        0 ≤ (pressKeys ks h).cursor_row ∧
          (pressKeys ks h).cursor_row < (h.todos.length : Int)) := by
  induction ks with
  | nil => intro h hm _; exact ⟨hm, rfl, fun hlo hhi => ⟨hlo, hhi⟩⟩
  | cons k ks ih =>
      intro h hm hks
      have hk := hks k (List.mem_cons_self k ks)
      have hrest : ∀ k' ∈ ks, k' = KeyCode.char 'j' ∨ k' = KeyCode.char 'k' :=
        fun k' hk' => hks k' (List.mem_cons_of_mem k hk')
      have hstep : pressKeys (k :: ks) h = pressKeys ks (pressKey h k) := by
        simp [pressKeys]
      rcases hk with rfl | rfl
      · rw [hstep, pressKey_browse_j h hm]
        have := ih { h with cursor_row := min (h.cursor_row + 1) ((h.todos.length : Int) - 1) }
          (by simp [hm]) hrest
        refine ⟨this.1, by simpa using this.2.1, fun hlo hhi => ?_⟩
        have := this.2.2 (by simp; try omega) (by simp; try omega)
        simpa using this
      · rw [hstep, pressKey_browse_k h hm]
        have := ih { h with cursor_row := max (h.cursor_row - 1) 0 }
          (by simp [hm]) hrest
        refine ⟨this.1, by simpa using this.2.1, fun hlo hhi => ?_⟩
        have := this.2.2 (by simp; try omega) (by simp; try omega)
        simpa using this

/-- C2: with a store of length at least one and the cursor row in
range, any sequence of j and k presses in Browse mode keeps the cursor
row within the index range of the (unchanged) store, a j press being a
downward step clamped to the last index and a k press an upward step
clamped to zero. -/
theorem c2_browse_cursor_in_range (h : Home) (ks : List KeyCode)
    (hm : h.input_mode = Mode.Browse) (_hlen : 1 ≤ h.todos.length)
    (hlo : 0 ≤ h.cursor_row) (hhi : h.cursor_row < (h.todos.length : Int))
    (hks : ∀ k ∈ ks, k = KeyCode.char 'j' ∨ k = KeyCode.char 'k') :
    ((pressKeys ks h).todos = h.todos ∧
      0 ≤ (pressKeys ks h).cursor_row ∧
      (pressKeys ks h).cursor_row < ((pressKeys ks h).todos.length : Int)) ∧
    (pressKey h (KeyCode.char 'j')).cursor_row =
      min (h.cursor_row + 1) ((h.todos.length : Int) - 1) ∧
    (pressKey h (KeyCode.char 'k')).cursor_row = max (h.cursor_row - 1) 0 := by
  obtain ⟨-, htodos, hrange⟩ := browse_jk_fold ks h hm hks
  obtain ⟨h1, h2⟩ := hrange hlo hhi
  exact ⟨⟨htodos, h1, by rw [htodos]; exact h2⟩,
    by rw [pressKey_browse_j h hm], by rw [pressKey_browse_k h hm]⟩

/-- Witness for C2: the spec's scenario with three items and three j
presses, landing on the last index. -/
theorem c2_browse_cursor_in_range_witness :
    ((pressKeys [KeyCode.char 'j', KeyCode.char 'j', KeyCode.char 'j']
        ⟨[⟨"A"⟩, ⟨"B"⟩, ⟨"C"⟩], ⟨[], 0⟩, Mode.Browse, 0⟩).todos =
        (⟨[⟨"A"⟩, ⟨"B"⟩, ⟨"C"⟩], ⟨[], 0⟩, Mode.Browse, 0⟩ : Home).todos ∧
      0 ≤ (pressKeys [KeyCode.char 'j', KeyCode.char 'j', KeyCode.char 'j']
        ⟨[⟨"A"⟩, ⟨"B"⟩, ⟨"C"⟩], ⟨[], 0⟩, Mode.Browse, 0⟩).cursor_row ∧
      (pressKeys [KeyCode.char 'j', KeyCode.char 'j', KeyCode.char 'j']
        ⟨[⟨"A"⟩, ⟨"B"⟩, ⟨"C"⟩], ⟨[], 0⟩, Mode.Browse, 0⟩).cursor_row <
        ((pressKeys [KeyCode.char 'j', KeyCode.char 'j', KeyCode.char 'j']
          ⟨[⟨"A"⟩, ⟨"B"⟩, ⟨"C"⟩], ⟨[], 0⟩, Mode.Browse, 0⟩).todos.length : Int)) ∧
    (pressKey ⟨[⟨"A"⟩, ⟨"B"⟩, ⟨"C"⟩], ⟨[], 0⟩, Mode.Browse, 0⟩
        (KeyCode.char 'j')).cursor_row =
      min ((⟨[⟨"A"⟩, ⟨"B"⟩, ⟨"C"⟩], ⟨[], 0⟩, Mode.Browse, 0⟩ : Home).cursor_row + 1)
        (((⟨[⟨"A"⟩, ⟨"B"⟩, ⟨"C"⟩], ⟨[], 0⟩, Mode.Browse, 0⟩ : Home).todos.length : Int) - 1) ∧
    (pressKey ⟨[⟨"A"⟩, ⟨"B"⟩, ⟨"C"⟩], ⟨[], 0⟩, Mode.Browse, 0⟩
        (KeyCode.char 'k')).cursor_row =
      max ((⟨[⟨"A"⟩, ⟨"B"⟩, ⟨"C"⟩], ⟨[], 0⟩, Mode.Browse, 0⟩ : Home).cursor_row - 1) 0 :=
  c2_browse_cursor_in_range ⟨[⟨"A"⟩, ⟨"B"⟩, ⟨"C"⟩], ⟨[], 0⟩, Mode.Browse, 0⟩
    [KeyCode.char 'j', KeyCode.char 'j', KeyCode.char 'j'] rfl (by decide) (by decide)
    (by decide) (by decide)

/-- C6 counterexample: with an empty store, a j press in Browse mode
does change the stored cursor row (from 0 to minus one), so the claim's
reading that the cursor row used for highlighting is unchanged fails. -/
theorem c6_cursor_row_changes :
    (pressKey ⟨[], ⟨[], 0⟩, Mode.Browse, 0⟩ (KeyCode.char 'j')).cursor_row ≠
      (⟨[], ⟨[], 0⟩, Mode.Browse, 0⟩ : Home).cursor_row := by decide

/-- C6 amended: with an empty store, j and k presses in Browse mode
never change the displayed selection: the highlighted row the renderer
paints is none before and after any such sequence (the stored cursor
row itself may change, as the counterexample shows, but an empty list
offers no row to highlight). -/
theorem c6_empty_store_display_unchanged (h : Home) (w : Nat) (ks : List KeyCode)
    (hm : h.input_mode = Mode.Browse) (he : h.todos = [])
    (hks : ∀ k ∈ ks, k = KeyCode.char 'j' ∨ k = KeyCode.char 'k') :
    (draw (pressKeys ks h) w).2.highlightedRow = (draw h w).2.highlightedRow ∧
    (draw (pressKeys ks h) w).2.highlightedRow = none := by
  obtain ⟨hm', htodos, -⟩ := browse_jk_fold ks h hm hks
  have hempty : (pressKeys ks h).todos = [] := by rw [htodos, he]
  constructor
  · simp [draw, hm', hm, hempty, he]
  · simp [draw, hm', hempty]

/-- Witness for C6 at the empty initial browse state after one j. -/
theorem c6_empty_store_display_unchanged_witness :
    (draw (pressKeys [KeyCode.char 'j'] ⟨[], ⟨[], 0⟩, Mode.Browse, 0⟩) 10).2.highlightedRow =
        (draw ⟨[], ⟨[], 0⟩, Mode.Browse, 0⟩ 10).2.highlightedRow ∧
      (draw (pressKeys [KeyCode.char 'j'] ⟨[], ⟨[], 0⟩, Mode.Browse, 0⟩) 10).2.highlightedRow =
        none :=
  c6_empty_store_display_unchanged ⟨[], ⟨[], 0⟩, Mode.Browse, 0⟩ 10 [KeyCode.char 'j']
    rfl rfl (by decide)

/-- C1 counterexample: running the spec's scenario (empty store, press
i, type Buy milk, press Enter) does not leave the mode at Editing: the
Enter press also emits the generic exit intent, which update then maps
to Normal. -/
theorem c1_mode_not_editing :
    (pressKeys buyMilkKeys Home.init).input_mode ≠ Mode.Editing := by decide

/-- C1 amended: in Editing mode, pressing Enter commits the buffer as a
new TodoItem appended to the store and clears the buffer; but because
the Enter press also emits the exit-current-mode intent after the
commit, the mode ends at Normal rather than remaining Editing.  The
scenario therefore yields the store Buy milk, an empty buffer, and mode
Normal. -/
theorem c1_enter_commits_then_exits (h : Home) (hm : h.input_mode = Mode.Editing) :
    pressKey h KeyCode.enter =
      { h with
        todos := h.todos ++ [TodoItem.new (String.mk h.input.value)],
        input := Input.reset,
        input_mode := Mode.Normal } ∧
    pressKeys buyMilkKeys Home.init =
      ⟨[TodoItem.new "Buy milk"], ⟨[], 0⟩, Mode.Normal, 0⟩ := by
  constructor
  · simp [pressKey, handle_key_events, update, harnessExitAction, hm]
  · decide

/-- Witness for C1 at a concrete editing state. -/
theorem c1_enter_commits_then_exits_witness :
    pressKey ⟨[], ⟨['h', 'i'], 2⟩, Mode.Editing, 0⟩ KeyCode.enter =
        ⟨[TodoItem.new "hi"], ⟨[], 0⟩, Mode.Normal, 0⟩ ∧
      pressKeys buyMilkKeys Home.init =
        ⟨[TodoItem.new "Buy milk"], ⟨[], 0⟩, Mode.Normal, 0⟩ :=
  c1_enter_commits_then_exits ⟨[], ⟨['h', 'i'], 2⟩, Mode.Editing, 0⟩ rfl

/-! Round-trip of the persistence encoding. -/

/-- Every character encodes to at least one character. -/
theorem one_le_length_encodeChar (c : Char) : 1 ≤ (encodeChar c).length := by
  unfold encodeChar; split_ifs <;> simp

/-- The encoded text is at least as long as the source text. -/
theorem length_le_length_encode (cs : List Char) :
    cs.length ≤ ((cs.map encodeChar).flatten).length := by
  induction cs with
  | nil => simp
  | cons c cs ih =>
      have := one_le_length_encodeChar c
      simp only [List.map_cons, List.flatten_cons, List.length_append, List.length_cons]
      omega

/-- skipWs keeps a non-whitespace head. -/
theorem skipWs_cons_of_not_ws (c : Char) (r : List Char) (h : isWs c = false) :
    skipWs (c :: r) = c :: r := by
  simp [skipWs, h]

/-- Hex digits round-trip below 16. -/
theorem parseHexDigit_hexDigitChar : ∀ m : Nat, m < 16 →
    parseHexDigit (hexDigitChar m) = some m := by decide

/-- Decoding inverts encoding for JSON string bodies: parsing the
encoded characters followed by a closing quote yields the original
characters, for any fuel beyond the character count. -/
theorem parseStringBody_encode (cs : List Char) :
    ∀ fuel rest, cs.length < fuel →
      parseStringBody fuel ((cs.map encodeChar).flatten ++ '"' :: rest) = some (cs, rest) := by
  induction cs with
  | nil =>
      intro fuel rest hf
      obtain ⟨f, rfl⟩ : ∃ f, fuel = f + 1 := ⟨fuel - 1, by omega⟩
      simp [parseStringBody]
  | cons c cs ih =>
      intro fuel rest hf
      obtain ⟨f, rfl⟩ : ∃ f, fuel = f + 1 := ⟨fuel - 1, by omega⟩
      have hrec := ih f rest (by simp at hf; omega)
      simp only [List.map_cons, List.flatten_cons, List.append_assoc]
      by_cases h1 : c = '"'
      · subst h1; simp [encodeChar, parseStringBody, unescapeSimple, hrec]
      by_cases h2 : c = '\\'
      · subst h2; simp [encodeChar, parseStringBody, unescapeSimple, hrec]
      by_cases h3 : c = Char.ofNat 8
      · subst h3; simp [encodeChar, parseStringBody, unescapeSimple, hrec]
      by_cases h4 : c = Char.ofNat 9
      · subst h4; simp [encodeChar, parseStringBody, unescapeSimple, hrec]
      by_cases h5 : c = Char.ofNat 10
      · subst h5; simp [encodeChar, parseStringBody, unescapeSimple, hrec]
      by_cases h6 : c = Char.ofNat 12
      · subst h6; simp [encodeChar, parseStringBody, unescapeSimple, hrec]
      by_cases h7 : c = Char.ofNat 13
      · subst h7; simp [encodeChar, parseStringBody, unescapeSimple, hrec]
      by_cases h8 : c.toNat < 32
      · have hdiv : c.toNat / 16 < 16 := by omega
        have hmod : c.toNat % 16 < 16 := by omega
        have e1 := parseHexDigit_hexDigitChar (c.toNat / 16) hdiv
        have e2 := parseHexDigit_hexDigitChar (c.toNat % 16) hmod
        have hn : c.toNat / 16 * 16 + c.toNat % 16 = c.toNat := by omega
        have hvalid : c.toNat < 55296 := by omega
        have e0 : parseHexDigit '0' = some 0 := by decide
        simp [encodeChar, h1, h2, h3, h4, h5, h6, h7, h8, parseStringBody, e0, e1, e2, hn,
          hvalid, hrec, Char.ofNat_toNat]
      · have hq : (c = '"') = False := by simp [h1]
        have hb : (c = '\\') = False := by simp [h2]
        simp only [encodeChar, h1, h2, h3, h4, h5, h6, h7, h8, if_false, ite_false,
          List.cons_append, List.nil_append]
        simp [parseStringBody, hq, hb, hrec]

/-- skipWs before an opening brace. -/
theorem skipWs_lbrace (r : List Char) : skipWs (lbrace :: r) = lbrace :: r :=
  skipWs_cons_of_not_ws _ _ (by decide)

/-- skipWs before a closing brace. -/
theorem skipWs_rbrace (r : List Char) : skipWs (rbrace :: r) = rbrace :: r :=
  skipWs_cons_of_not_ws _ _ (by decide)

/-- skipWs before a quote. -/
theorem skipWs_quote (r : List Char) : skipWs ('"' :: r) = '"' :: r :=
  skipWs_cons_of_not_ws _ _ (by decide)

/-- skipWs before a colon. -/
theorem skipWs_colon (r : List Char) : skipWs (':' :: r) = ':' :: r :=
  skipWs_cons_of_not_ws _ _ (by decide)

/-- skipWs before a comma. -/
theorem skipWs_comma (r : List Char) : skipWs (',' :: r) = ',' :: r :=
  skipWs_cons_of_not_ws _ _ (by decide)

/-- skipWs before a closing bracket. -/
theorem skipWs_rbracket (r : List Char) : skipWs (']' :: r) = ']' :: r :=
  skipWs_cons_of_not_ws _ _ (by decide)

/-- Parsing one encoded item yields the item back, for any fuel beyond
the title length and the key length. -/
theorem parseItem_encodeItem (t : TodoItem) (rest : List Char) (fuel : Nat)
    (hf : t.title.data.length < fuel) (hk : 6 ≤ fuel) :
    parseItem fuel (encodeItem t ++ rest) = some (t, rest) := by
  have hkeyflat : (titleKey.map encodeChar).flatten = titleKey := by decide
  have hkey := parseStringBody_encode titleKey
    fuel (':' :: '"' :: ((t.title.data.map encodeChar).flatten ++ '"' :: rbrace :: rest))
    (by simp [titleKey]; omega)
  rw [hkeyflat] at hkey
  have hval := parseStringBody_encode t.title.data fuel (rbrace :: rest) hf
  have hmk : TodoItem.new (String.mk t.title.data) = t := rfl
  simp only [encodeItem, encodeString, titleKey, List.cons_append, List.nil_append,
    List.append_assoc] at hkey hval ⊢
  simp [parseItem, skipWs_lbrace, skipWs_quote, skipWs_colon, skipWs_rbrace,
    hkey, hval, hmk, titleKey]

/-- skipWs before an opening bracket. -/
theorem skipWs_lbracket (r : List Char) : skipWs ('[' :: r) = '[' :: r :=
  skipWs_cons_of_not_ws _ _ (by decide)

/-- Parsing the encoded tail of a nonempty array appends the remaining
items to the accumulator. -/
theorem parseArrayTail_encode (ts : List TodoItem) :
    ∀ (sfuel afuel : Nat) (acc : List TodoItem) (rest : List Char),
      (∀ u ∈ ts, u.title.data.length < sfuel) → 6 ≤ sfuel → ts.length < afuel →
      parseArrayTail sfuel afuel acc
          ((ts.map fun u => ',' :: encodeItem u).flatten ++ ']' :: rest) =
        some (acc ++ ts, rest) := by
  induction ts with
  | nil =>
      intro sfuel afuel acc rest _ _ ha
      obtain ⟨a, rfl⟩ : ∃ a, afuel = a + 1 := ⟨afuel - 1, by omega⟩
      simp [parseArrayTail, skipWs_rbracket]
  | cons u us ih =>
      intro sfuel afuel acc rest hs h6 ha
      obtain ⟨a, rfl⟩ : ∃ a, afuel = a + 1 := ⟨afuel - 1, by omega⟩
      have hitem := parseItem_encodeItem u
        ((us.map fun v => ',' :: encodeItem v).flatten ++ ']' :: rest) sfuel
        (hs u (by simp)) h6
      have hrec := ih sfuel a (acc ++ [u]) rest
        (fun v hv => hs v (by simp [hv])) h6 (by simp at ha ⊢; omega)
      simp only [List.map_cons, List.flatten_cons, List.cons_append, List.append_assoc]
      simp [parseArrayTail, skipWs_comma, hitem, hrec]

/-- An item's encoding is the title's encoding plus twelve bytes of
frame. -/
theorem length_encodeItem (t : TodoItem) :
    t.title.data.length + 12 ≤ (encodeItem t).length := by
  have h := length_le_length_encode t.title.data
  simp only [encodeItem, encodeString, titleKey, List.cons_append, List.nil_append,
    List.length_cons, List.length_append]
  omega

/-- Every title in the encoded tail is shorter than the tail. -/
theorem title_length_lt_flatten (ts : List TodoItem) (u : TodoItem) (hu : u ∈ ts) :
    u.title.data.length < ((ts.map fun v => ',' :: encodeItem v).flatten).length := by
  induction ts with
  | nil => cases hu
  | cons v vs ih =>
      simp only [List.map_cons, List.flatten_cons, List.length_append, List.length_cons]
      rcases List.mem_cons.mp hu with rfl | h
      · have := length_encodeItem u
        omega
      · have := ih h
        omega

/-- The encoded tail has at least one character per item. -/
theorem count_le_flatten (ts : List TodoItem) :
    ts.length ≤ ((ts.map fun v => ',' :: encodeItem v).flatten).length := by
  induction ts with
  | nil => simp
  | cons v vs ih =>
      simp only [List.map_cons, List.flatten_cons, List.length_append, List.length_cons]
      omega

/-- Core round-trip: with enough fuel, parsing the serialized store
yields the store back. -/
theorem parseTodosCore_encodeTodos (l : List TodoItem) (fuel : Nat)
    (hts : ∀ u ∈ l, u.title.data.length < fuel) (h6 : 6 ≤ fuel)
    (hc : l.length < fuel) :
    parseTodosCore fuel (encodeTodos l) = some l := by
  cases l with
  | nil =>
      simp only [encodeTodos, parseTodosCore]
      rw [skipWs_lbracket]
      simp [skipWs, isWs]
  | cons t ts =>
      have hitem := parseItem_encodeItem t
        ((ts.map fun v => ',' :: encodeItem v).flatten ++ ']' :: []) fuel
        (hts t (by simp)) h6
      have htail := parseArrayTail_encode ts fuel fuel [t] []
        (fun u hu => hts u (by simp [hu])) h6 (by simp at hc; omega)
      have hbrace : (lbrace = ']') = False := by decide
      simp only [encodeTodos, List.cons_append, List.append_assoc]
      simp only [parseTodosCore]
      rw [skipWs_lbracket]
      simp only [encodeItem, encodeString, titleKey, List.cons_append, List.nil_append,
        List.append_assoc] at hitem htail ⊢
      rw [skipWs_lbrace]
      simp [hbrace, hitem, htail, skipWs]

/-- Round-trip: parsing the serialized store yields the store back. -/
theorem parseTodos_encodeTodos (l : List TodoItem) :
    parseTodos (String.mk (encodeTodos l)) = some l := by
  cases l with
  | nil => decide
  | cons t ts =>
      have hdata : (String.mk (encodeTodos (t :: ts))).data = encodeTodos (t :: ts) := rfl
      have h12 := length_encodeItem t
      have hflat := count_le_flatten ts
      have hlen : ∀ u ∈ t :: ts,
          u.title.data.length < (encodeTodos (t :: ts)).length + 1 := by
        intro u hu
        rcases List.mem_cons.mp hu with rfl | h
        · simp only [encodeTodos, List.length_cons, List.length_append]
          omega
        · have := title_length_lt_flatten ts u h
          simp only [encodeTodos, List.length_cons, List.length_append]
          omega
      have h6 : 6 ≤ (encodeTodos (t :: ts)).length + 1 := by
        simp only [encodeTodos, List.length_cons, List.length_append]
        omega
      have hc : (t :: ts).length < (encodeTodos (t :: ts)).length + 1 := by
        simp only [encodeTodos, List.length_cons, List.length_append]
        simp only [List.length_map] at hflat ⊢
        omega
      rw [parseTodos, hdata]
      exact parseTodosCore_encodeTodos (t :: ts) _ hlen h6 hc

/-- Rebuilding an item from its title is the identity. -/
theorem map_new_title (l : List TodoItem) :
    l.map (fun u => TodoItem.new u.title) = l := by
  induction l with
  | nil => rfl
  | cons t ts ih => simp only [List.map_cons, ih]; rfl

/-- C4: buildup with a missing source succeeds with the store left as it
was (empty on a fresh component), while a present but unparseable
source makes buildup propagate a parse error instead of silently
resetting the store to empty. -/
theorem c4_load_missing_vs_corrupt (h : Home) (s : String)
    (hbad : parseTodos s = none) :
    buildup none h = Except.ok h ∧
    buildup none Home.init = Except.ok Home.init ∧
    buildup (some s) h = Except.error "parse error" := by
  refine ⟨rfl, rfl, ?_⟩
  simp [buildup, hbad]

/-- Witness for C4 at the fresh component and a corrupt file. -/
theorem c4_load_missing_vs_corrupt_witness :
    buildup none Home.init = Except.ok Home.init ∧
    buildup none Home.init = Except.ok Home.init ∧
    buildup (some "oops") Home.init = Except.error "parse error" :=
  c4_load_missing_vs_corrupt Home.init "oops" (by decide)

/-- C5: saving any store with teardown and loading the written text
with buildup on a fresh component reproduces the store, and with it the
ordered sequence of titles, exactly. -/
theorem c5_save_load_roundtrip (store : List TodoItem) :
    buildup (some (teardown { Home.init with todos := store })) Home.init =
      Except.ok { Home.init with todos := store } := by
  cases store with
  | nil => rfl
  | cons t ts =>
      have hparse := parseTodos_encodeTodos (t :: ts)
      simp [buildup, teardown, hparse, map_new_title, Home.init]
      rfl

end DoIt
